import Mathlib

/-
Shallow embedding of the `sogi_pll` Rust crate (src/src/lib.rs).

The source computes over `f32`.  The embedding replaces `f32` by `ℚ` and
treats the transcendental primitives (`sin`, `cos`, `sqrt`), the constant
`PI` and the constant `SQRT_1_2 = 1/sqrt 2` as abstract stand-ins gathered
in an `Env` record, so every definition stays executable and the control
and data flow of the source is preserved exactly.  Rust's `%` on floats
(remainder with the sign of the dividend) is embedded as `fmod` below.
-/

namespace SogiPllSpec

/-- Round a rational toward zero, as Rust float division-then-truncation
used by the `%` remainder does. -/
def rtrunc (q : ℚ) : ℤ :=
  if 0 ≤ q then ⌊q⌋ else ⌈q⌉

/-- Rust's `%` on floats: remainder of `x / y` rounded toward zero, so the
result carries the sign of the dividend `x`. -/
def fmod (x y : ℚ) : ℚ :=
  x - y * (rtrunc (x / y) : ℚ)

/-- Stand-ins for the `f32` transcendental primitives and constants used by
the source: `theta.sin()`, `theta.cos()`, `.sqrt()`, `core::f32::consts::PI`
and `SQRT_1_2 = 1.0 / SQRT_2`. -/
structure Env where
  sin : ℚ → ℚ
  cos : ℚ → ℚ
  sqrt : ℚ → ℚ
  pi : ℚ
  sqrt_1_2 : ℚ

/-- State of `ThirdOrderIntegrator`: the stored `sample_time` and the three
taps `samples[0]`, `samples[1]`, `samples[2]`. -/
structure ThirdOrderIntegrator where
  sample_time : ℚ
  s0 : ℚ
  s1 : ℚ
  s2 : ℚ
deriving DecidableEq

/-- `ThirdOrderIntegrator::new`: zeroed taps, stored sample time. -/
def ThirdOrderIntegrator.new (sample_time : ℚ) : ThirdOrderIntegrator :=
  { sample_time := sample_time, s0 := 0, s1 := 0, s2 := 0 }

/-- `ThirdOrderIntegrator::update`: `samples[2] = samples[1]`,
`samples[1] = samples[0]`, `samples[0] += x * (sample_time / 12.0)`. -/
def ThirdOrderIntegrator.update (t : ThirdOrderIntegrator) (x : ℚ) :
    ThirdOrderIntegrator :=
  { t with
    s2 := t.s1
    s1 := t.s0
    s0 := t.s0 + x * (t.sample_time / 12) }

/-- `ThirdOrderIntegrator::value`:
`samples[0] * 23.0 - samples[1] * 16.0 + samples[2] * 5.0`. -/
def ThirdOrderIntegrator.value (t : ThirdOrderIntegrator) : ℚ :=
  t.s0 * 23 - t.s1 * 16 + t.s2 * 5

/-- State of `Sogi<f32>`: gain `k` and the two integrators. -/
structure Sogi where
  k : ℚ
  integrator_1 : ThirdOrderIntegrator
  integrator_2 : ThirdOrderIntegrator
deriving DecidableEq

/-- `Sogi::new`. -/
def Sogi.new (k sample_time : ℚ) : Sogi :=
  { k := k
    integrator_1 := ThirdOrderIntegrator.new sample_time
    integrator_2 := ThirdOrderIntegrator.new sample_time }

/-- `Sogi::update`: reads the two integrator values as `(v_alpha, v_beta)`,
advances integrator 1 with `((v - v_alpha) * k - v_beta) * omega` and
integrator 2 with `v_alpha * omega`, and returns the pre-advance pair. -/
def Sogi.update (s : Sogi) (v omega : ℚ) : Sogi × ℚ × ℚ :=
  let v_alpha := s.integrator_1.value
  let v_beta := s.integrator_2.value
  let integrator_1_in := ((v - v_alpha) * s.k - v_beta) * omega
  let integrator_2_in := v_alpha * omega
  ({ s with
      integrator_1 := s.integrator_1.update integrator_1_in
      integrator_2 := s.integrator_2.update integrator_2_in },
   v_alpha, v_beta)

/-- `alpha_beta_to_q`: `-alpha * theta.sin() + beta * theta.cos()`. -/
def alpha_beta_to_q (env : Env) (alpha beta theta : ℚ) : ℚ :=
  -alpha * env.sin theta + beta * env.cos theta

/-- `PllConfig`. -/
structure PllConfig where
  sample_time : ℚ
  sogi_k : ℚ
  pi_proportional_gain : ℚ
  pi_integral_gain : ℚ
  omega_zero : ℚ
  frequency_limit : ℚ
deriving DecidableEq

/-- `PllResult`: the fields the source actually returns. -/
structure PllResult where
  v_beta : ℚ
  theta : ℚ
  v_rms : ℚ
deriving DecidableEq

/-- Clamp `x` into `[-|l|, |l|]`, the saturation used by the controller. -/
def clampAbs (x l : ℚ) : ℚ :=
  max (-|l|) (min |l| x)

/-- Modelled from the spec: the FrequencyController of §4.4/§6.  The
concrete controller is the external `pid` crate, whose source is not part
of this repository; the spec's contract is a proportional term plus an
integral accumulator advanced once per call, each saturated, with the
total output saturated in both directions, and an error computed as
`setpoint - measurement` by a setpoint-tracking controller.  The state
mirrors what the source configures: `Pid::new(0.0, limit)` then
`.p(kp, limit)` and `.i(ki, limit)`. -/
structure Pid where
  setpoint : ℚ
  kp : ℚ
  ki : ℚ
  p_limit : ℚ
  i_limit : ℚ
  output_limit : ℚ
  integral_term : ℚ
deriving DecidableEq

/-- Modelled from the spec: one controller step.  Error is
`setpoint - measurement`; the proportional term `kp * error` is saturated
at `p_limit`; the integral accumulator gains `ki * error` and is saturated
at `i_limit`; the output `p + i` is saturated at `output_limit`.  Returns
the advanced controller state and the output. -/
def Pid.next_control_output (pid : Pid) (measurement : ℚ) : Pid × ℚ :=
  let error := pid.setpoint - measurement
  let p := clampAbs (pid.kp * error) pid.p_limit
  let i := clampAbs (pid.integral_term + pid.ki * error) pid.i_limit
  let output := clampAbs (p + i) pid.output_limit
  ({ pid with integral_term := i }, output)

/-- State of `SogiPll`. -/
structure SogiPll where
  config : PllConfig
  sogi : Sogi
  pid : Pid
  pi_value : ℚ
  z1 : ℚ
deriving DecidableEq

/-- `SogiPll::new`: builds the SOGI from `sogi_k` and `sample_time`,
configures the controller with setpoint `0.0` and `frequency_limit` as the
proportional, integral and output saturation bound, and zeroes `pi_value`
and `z1`. -/
def SogiPll.new (config : PllConfig) : SogiPll :=
  { config := config
    sogi := Sogi.new config.sogi_k config.sample_time
    pid :=
      { setpoint := 0
        kp := config.pi_proportional_gain
        ki := config.pi_integral_gain
        p_limit := config.frequency_limit
        i_limit := config.frequency_limit
        output_limit := config.frequency_limit
        integral_term := 0 }
    pi_value := 0
    z1 := 0 }

/-- `SogiPll::update`: `omega = pi_value + omega_zero`; the SOGI is
advanced with `(v, omega)`; `q` is taken at the pre-update phase `z1`;
`z1` becomes `(omega * sample_time + z1) % (2 * PI)`; the controller is
stepped on `-q` and its output stored in `pi_value`;
`v_rms = SQRT_1_2 * sqrt(v_alpha² + v_beta²)`. -/
def SogiPll.update (env : Env) (pll : SogiPll) (v : ℚ) : SogiPll × PllResult :=
  let omega := pll.pi_value + pll.config.omega_zero
  let sogiStep := pll.sogi.update v omega
  let v_alpha := sogiStep.2.1
  let v_beta := sogiStep.2.2
  let q := alpha_beta_to_q env v_alpha v_beta pll.z1
  let z1 := fmod (omega * pll.config.sample_time + pll.z1) (2 * env.pi)
  let pidStep := pll.pid.next_control_output (-q)
  let v_rms := env.sqrt_1_2 * env.sqrt (v_alpha ^ 2 + v_beta ^ 2)
  ({ pll with
      sogi := sogiStep.1
      pid := pidStep.1
      pi_value := pidStep.2
      z1 := z1 },
   { v_beta := v_beta, theta := z1, v_rms := v_rms })

/-- Drive the PLL over a finite sequence of samples, collecting the result
of every call. -/
def SogiPll.run (env : Env) : SogiPll → List ℚ → SogiPll × List PllResult
  | pll, [] => (pll, [])
  | pll, v :: rest =>
    ((SogiPll.run env (SogiPll.update env pll v).1 rest).1,
     (SogiPll.update env pll v).2 :: (SogiPll.run env (SogiPll.update env pll v).1 rest).2)

/-- One application of the free-running phase recursion: the phase
accumulated by one step of `omega_zero * sample_time`, wrapped by the
source's `%` remainder. -/
def phaseStep (env : Env) (cfg : PllConfig) (z : ℚ) : ℚ :=
  fmod (cfg.omega_zero * cfg.sample_time + z) (2 * env.pi)

/-! Concrete environments and configurations used to evaluate the model on
specific inputs.  `envC` fixes simple computable stand-ins for the
transcendental primitives; the configurations below are finite values a
caller may legally supply. -/

/-- A concrete environment: zero stand-ins for `sin`, `cos`, `sqrt` and a
positive rational stand-in for `PI`. -/
def envC : Env :=
  { sin := fun _ => 0
    cos := fun _ => 0
    sqrt := fun _ => 0
    pi := 3
    sqrt_1_2 := 7 / 10 }

/-- A configuration with a negative nominal frequency; every field is a
finite value the `PllConfig` type accepts. -/
def cfgNeg : PllConfig :=
  { sample_time := 1
    sogi_k := 1
    pi_proportional_gain := 1
    pi_integral_gain := 1
    omega_zero := -1
    frequency_limit := 1 }

/-- A configuration whose first phase increment is `1 * 2 = 2`. -/
def cfgA : PllConfig :=
  { sample_time := 2
    sogi_k := 1
    pi_proportional_gain := 1
    pi_integral_gain := 1
    omega_zero := 1
    frequency_limit := 1 }

/-- A configuration whose first phase increment is `2 * 1 = 2`, with a
different angular frequency than `cfgA`. -/
def cfgB : PllConfig :=
  { sample_time := 1
    sogi_k := 1
    pi_proportional_gain := 1
    pi_integral_gain := 1
    omega_zero := 2
    frequency_limit := 1 }

/-- A well-behaved configuration: nonnegative sample time and
`|frequency_limit| ≤ omega_zero`. -/
def cfgW : PllConfig :=
  { sample_time := 1
    sogi_k := 1
    pi_proportional_gain := 1
    pi_integral_gain := 1
    omega_zero := 2
    frequency_limit := 1 }

/-! Basic lemmas about the embedded primitives. -/

/-- The saturation always lands in `[-|l|, |l|]`. -/
theorem abs_clampAbs_le (x l : ℚ) : |clampAbs x l| ≤ |l| := by
  rw [abs_le]
  constructor
  · exact le_max_left _ _
  · exact max_le ((neg_nonpos.mpr (abs_nonneg l)).trans (abs_nonneg l)) (min_le_left _ _)

/-- Saturating zero gives zero. -/
@[simp]
theorem clampAbs_zero (l : ℚ) : clampAbs 0 l = 0 := by
  unfold clampAbs
  rw [min_eq_right (abs_nonneg l), max_eq_right (neg_nonpos.mpr (abs_nonneg l))]

/-- For a positive modulus and a nonnegative dividend, the source's `%`
remainder lands in `[0, y)`. -/
theorem fmod_bounds (x y : ℚ) (hy : 0 < y) (hx : 0 ≤ x) :
    0 ≤ fmod x y ∧ fmod x y < y := by
  have hdiv : (0 : ℚ) ≤ x / y := div_nonneg hx hy.le
  have htr : rtrunc (x / y) = ⌊x / y⌋ := if_pos hdiv
  have hfl : ((⌊x / y⌋ : ℤ) : ℚ) ≤ x / y := Int.floor_le _
  have hfl2 : x / y < ((⌊x / y⌋ : ℤ) : ℚ) + 1 := Int.lt_floor_add_one _
  have hyx : y * (x / y) = x := by field_simp
  have h1 : y * ((⌊x / y⌋ : ℤ) : ℚ) ≤ x := by
    have h := mul_le_mul_of_nonneg_left hfl hy.le
    rwa [hyx] at h
  have h2 : x < y * (((⌊x / y⌋ : ℤ) : ℚ) + 1) := by
    have h := mul_lt_mul_of_pos_left hfl2 hy
    rwa [hyx] at h
  have h3 : y * (((⌊x / y⌋ : ℤ) : ℚ) + 1) = y * ((⌊x / y⌋ : ℤ) : ℚ) + y := by ring
  unfold fmod
  rw [htr]
  constructor
  · linarith
  · linarith

/-! Projection lemmas for one controller step and one PLL step; all hold by
unfolding the definitions. -/

theorem next_control_output_fst_limits (pid : Pid) (m : ℚ) :
    (pid.next_control_output m).1.output_limit = pid.output_limit := rfl

theorem abs_next_control_output_le (pid : Pid) (m : ℚ) :
    |(pid.next_control_output m).2| ≤ |pid.output_limit| :=
  abs_clampAbs_le _ _

theorem update_fst_config (env : Env) (s : SogiPll) (v : ℚ) :
    (SogiPll.update env s v).1.config = s.config := rfl

theorem update_fst_pid (env : Env) (s : SogiPll) (v : ℚ) :
    (SogiPll.update env s v).1.pid =
      (s.pid.next_control_output
        (-(alpha_beta_to_q env
            (s.sogi.update v (s.pi_value + s.config.omega_zero)).2.1
            (s.sogi.update v (s.pi_value + s.config.omega_zero)).2.2 s.z1))).1 := rfl

theorem update_fst_pi_value (env : Env) (s : SogiPll) (v : ℚ) :
    (SogiPll.update env s v).1.pi_value =
      (s.pid.next_control_output
        (-(alpha_beta_to_q env
            (s.sogi.update v (s.pi_value + s.config.omega_zero)).2.1
            (s.sogi.update v (s.pi_value + s.config.omega_zero)).2.2 s.z1))).2 := rfl

theorem update_snd_theta (env : Env) (s : SogiPll) (v : ℚ) :
    (SogiPll.update env s v).2.theta =
      fmod ((s.pi_value + s.config.omega_zero) * s.config.sample_time + s.z1)
        (2 * env.pi) := rfl

theorem update_fst_z1 (env : Env) (s : SogiPll) (v : ℚ) :
    (SogiPll.update env s v).1.z1 =
      fmod ((s.pi_value + s.config.omega_zero) * s.config.sample_time + s.z1)
        (2 * env.pi) := rfl

/-! Claim theorems. -/

/-- C4: for every SOGI state and all inputs `v`, `omega`, `Sogi.update`
returns the pair read from the two integrators before they are advanced,
then advances integrator 1 with `((v - v_alpha) * k - v_beta) * omega` and
integrator 2 with `v_alpha * omega`, leaving the gain `k` unchanged. -/
theorem claim4_sogi_update (s : Sogi) (v omega : ℚ) :
    (s.update v omega).2 = (s.integrator_1.value, s.integrator_2.value) ∧
    (s.update v omega).1.integrator_1 =
      s.integrator_1.update
        (((v - s.integrator_1.value) * s.k - s.integrator_2.value) * omega) ∧
    (s.update v omega).1.integrator_2 =
      s.integrator_2.update (s.integrator_1.value * omega) ∧
    (s.update v omega).1.k = s.k :=
  ⟨rfl, rfl, rfl, rfl⟩

/-- C5: on every `SogiPll.update` call, the SOGI is advanced with the
angular frequency `pi_value + omega_zero` (the correction stored by the
previous call plus the nominal frequency); the phase error is
`q = -v_alpha * sin(z1) + v_beta * cos(z1)` taken at the pre-update phase
`z1`; the controller is stepped on `-q`; and its output becomes the stored
correction `pi_value` for the next call. -/
theorem claim5_update_dataflow (env : Env) (s : SogiPll) (v : ℚ) :
    (SogiPll.update env s v).1.sogi =
      (s.sogi.update v (s.pi_value + s.config.omega_zero)).1 ∧
    alpha_beta_to_q env (s.sogi.update v (s.pi_value + s.config.omega_zero)).2.1
        (s.sogi.update v (s.pi_value + s.config.omega_zero)).2.2 s.z1 =
      -(s.sogi.update v (s.pi_value + s.config.omega_zero)).2.1 * env.sin s.z1 +
        (s.sogi.update v (s.pi_value + s.config.omega_zero)).2.2 * env.cos s.z1 ∧
    (SogiPll.update env s v).1.pi_value =
      (s.pid.next_control_output
        (-(alpha_beta_to_q env
            (s.sogi.update v (s.pi_value + s.config.omega_zero)).2.1
            (s.sogi.update v (s.pi_value + s.config.omega_zero)).2.2 s.z1))).2 ∧
    (SogiPll.update env s v).1.pid =
      (s.pid.next_control_output
        (-(alpha_beta_to_q env
            (s.sogi.update v (s.pi_value + s.config.omega_zero)).2.1
            (s.sogi.update v (s.pi_value + s.config.omega_zero)).2.2 s.z1))).1 :=
  ⟨rfl, rfl, rfl, rfl⟩

/-- C6: the integrator is created zeroed; `update x` shifts the two older
taps down and folds `x` times the per-step gain `sample_time / 12` into
the newest tap, so `tap3 = old tap2`, `tap2 = old tap1`,
`tap1 = old tap1 + x * (sample_time / 12)`; and `value` returns
`23 * tap1 - 16 * tap2 + 5 * tap3`. -/
theorem claim6_integrator (T : ℚ) (t : ThirdOrderIntegrator) (x : ℚ) :
    (ThirdOrderIntegrator.new T).s0 = 0 ∧
    (ThirdOrderIntegrator.new T).s1 = 0 ∧
    (ThirdOrderIntegrator.new T).s2 = 0 ∧
    (ThirdOrderIntegrator.new T).sample_time = T ∧
    (t.update x).s2 = t.s1 ∧
    (t.update x).s1 = t.s0 ∧
    (t.update x).s0 = t.s0 + x * (t.sample_time / 12) ∧
    t.value = 23 * t.s0 - 16 * t.s1 + 5 * t.s2 :=
  ⟨rfl, rfl, rfl, rfl, rfl, rfl, rfl, by unfold ThirdOrderIntegrator.value; ring⟩

/-- C8: on every call, the returned RMS magnitude is the constant stand-in
for `1/sqrt 2` times the square root of `v_alpha² + v_beta²`, where
`(v_alpha, v_beta)` is the quadrature pair the SOGI returned on that same
call. -/
theorem claim8_v_rms (env : Env) (s : SogiPll) (v : ℚ) :
    (SogiPll.update env s v).2.v_rms =
      env.sqrt_1_2 * env.sqrt
        ((s.sogi.update v (s.pi_value + s.config.omega_zero)).2.1 ^ 2 +
          (s.sogi.update v (s.pi_value + s.config.omega_zero)).2.2 ^ 2) := rfl

/-- C2 counterexample: the result bundle does not contain the estimated
angular frequency: no function of the returned `PllResult` can recover the
angular frequency of the call, because two configurations with different
angular frequencies produce identical result bundles already on their
first call. -/
theorem claim2_counterexample :
    ¬ ∃ f : PllResult → ℚ, ∀ (cfg : PllConfig) (v : ℚ),
        f (SogiPll.update envC (SogiPll.new cfg) v).2 =
          (SogiPll.new cfg).pi_value + cfg.omega_zero := by
  rintro ⟨f, hf⟩
  have hA := hf cfgA 0
  have hB := hf cfgB 0
  have hres : (SogiPll.update envC (SogiPll.new cfgA) 0).2 =
      (SogiPll.update envC (SogiPll.new cfgB) 0).2 := by
    norm_num [SogiPll.update, SogiPll.new, Sogi.new, Sogi.update,
      ThirdOrderIntegrator.new, ThirdOrderIntegrator.update,
      ThirdOrderIntegrator.value, alpha_beta_to_q, Pid.next_control_output,
      clampAbs, fmod, rtrunc, envC, cfgA, cfgB]
  rw [hres, hB] at hA
  norm_num [cfgA, cfgB, SogiPll.new] at hA

/-- C2 amended: every call to `SogiPll.update` returns a result bundle
containing the quadrature component `v_beta`, the wrapped phase angle
`theta`, and the RMS magnitude `v_rms`, each with the value prescribed by
the pipeline; the angular frequency is not part of the bundle. -/
theorem claim2_result_fields_amended (env : Env) (s : SogiPll) (v : ℚ) :
    (SogiPll.update env s v).2 =
      { v_beta := (s.sogi.update v (s.pi_value + s.config.omega_zero)).2.2
        theta := fmod ((s.pi_value + s.config.omega_zero) * s.config.sample_time + s.z1)
          (2 * env.pi)
        v_rms := env.sqrt_1_2 * env.sqrt
          ((s.sogi.update v (s.pi_value + s.config.omega_zero)).2.1 ^ 2 +
            (s.sogi.update v (s.pi_value + s.config.omega_zero)).2.2 ^ 2) } := rfl

/-- C9: two estimators independently constructed from the same
configuration produce identical output sequences on the same finite input
sequence. -/
theorem claim9_determinism (env : Env) (cfg : PllConfig) (p1 p2 : SogiPll)
    (vs : List ℚ) (h1 : p1 = SogiPll.new cfg) (h2 : p2 = SogiPll.new cfg) :
    (SogiPll.run env p1 vs).2 = (SogiPll.run env p2 vs).2 := by
  rw [h1, h2]

/-- C9 witness: the determinism theorem applied to two copies of the
estimator built from `cfgW`, on the input sequence `[1, 2]`. -/
theorem claim9_determinism_witness :
    (SogiPll.run envC (SogiPll.new cfgW) [1, 2]).2 =
      (SogiPll.run envC (SogiPll.new cfgW) [1, 2]).2 :=
  claim9_determinism envC cfgW (SogiPll.new cfgW) (SogiPll.new cfgW) [1, 2] rfl rfl

/-- C1 counterexample: the phase is not in `[0, 2π)` for every
configuration: with the finite configuration `cfgNeg` (negative nominal
frequency) the very first call returns a negative phase, because the
source's `%` remainder keeps the sign of its dividend. -/
theorem claim1_counterexample :
    (SogiPll.update envC (SogiPll.new cfgNeg) 0).2.theta < 0 := by
  norm_num [SogiPll.update, SogiPll.new, Sogi.new, Sogi.update,
    ThirdOrderIntegrator.new, ThirdOrderIntegrator.update,
    ThirdOrderIntegrator.value, alpha_beta_to_q, Pid.next_control_output,
    clampAbs, fmod, rtrunc, envC, cfgNeg]
  have h : (⌈-(1 / 6 : ℚ)⌉ : ℤ) = 0 := by norm_num
  rw [h]
  norm_num

end SogiPllSpec

namespace SogiPllSpec

/-- The controller-related state invariant: the controller's output bound
is the configured `frequency_limit` and the stored correction is within
that bound in absolute value. -/
def PidInv (cfg : PllConfig) (s : SogiPll) : Prop :=
  s.pid.output_limit = cfg.frequency_limit ∧ |s.pi_value| ≤ |cfg.frequency_limit|

theorem pidInv_new (cfg : PllConfig) : PidInv cfg (SogiPll.new cfg) := by
  refine ⟨rfl, ?_⟩
  show |(0 : ℚ)| ≤ _
  rw [abs_zero]
  exact abs_nonneg _

theorem pidInv_update (env : Env) (cfg : PllConfig) (s : SogiPll) (v : ℚ)
    (h : PidInv cfg s) : PidInv cfg (SogiPll.update env s v).1 := by
  obtain ⟨h1, _⟩ := h
  refine ⟨h1, ?_⟩
  rw [update_fst_pi_value]
  calc |(s.pid.next_control_output _).2| ≤ |s.pid.output_limit| :=
        abs_next_control_output_le _ _
    _ = |cfg.frequency_limit| := by rw [h1]

theorem pidInv_run (env : Env) (cfg : PllConfig) (vs : List ℚ) :
    ∀ s : SogiPll, PidInv cfg s → PidInv cfg (SogiPll.run env s vs).1 := by
  induction vs with
  | nil => intro s hs; exact hs
  | cons v rest ih =>
    intro s hs
    exact ih _ (pidInv_update env cfg s v hs)

/-- C3: with a nonnegative frequency correction limit configured, after
any finite input sequence the stored frequency correction plus
`omega_zero` — the angular frequency the next update will use — lies
between `omega_zero - frequency_limit` and `omega_zero + frequency_limit`.
Applied to every prefix of an input sequence, this bounds the frequency
used on every update. -/
theorem claim3_frequency_saturation (env : Env) (cfg : PllConfig)
    (vs : List ℚ) (hL : 0 ≤ cfg.frequency_limit) :
    cfg.omega_zero - cfg.frequency_limit ≤
      (SogiPll.run env (SogiPll.new cfg) vs).1.pi_value + cfg.omega_zero ∧
    (SogiPll.run env (SogiPll.new cfg) vs).1.pi_value + cfg.omega_zero ≤
      cfg.omega_zero + cfg.frequency_limit := by
  have h := (pidInv_run env cfg vs (SogiPll.new cfg) (pidInv_new cfg)).2
  rw [abs_of_nonneg hL] at h
  obtain ⟨hlo, hhi⟩ := abs_le.mp h
  constructor
  · linarith
  · linarith

/-- The phase-related state invariant: the configuration is the one the
estimator was built from, the controller invariant holds, and the stored
phase accumulator is nonnegative. -/
def PhaseInv (cfg : PllConfig) (s : SogiPll) : Prop :=
  s.config = cfg ∧ PidInv cfg s ∧ 0 ≤ s.z1

theorem phaseInv_update (env : Env) (cfg : PllConfig) (s : SogiPll) (v : ℚ)
    (hpi : 0 < env.pi) (hT : 0 ≤ cfg.sample_time)
    (hw : |cfg.frequency_limit| ≤ cfg.omega_zero) (h : PhaseInv cfg s) :
    PhaseInv cfg (SogiPll.update env s v).1 ∧
      0 ≤ (SogiPll.update env s v).2.theta ∧
      (SogiPll.update env s v).2.theta < 2 * env.pi := by
  obtain ⟨hc, hpid, hz⟩ := h
  have hneg : -|cfg.frequency_limit| ≤ s.pi_value := (abs_le.mp hpid.2).1
  have homega : 0 ≤ s.pi_value + s.config.omega_zero := by
    rw [hc]
    linarith
  have hx : 0 ≤ (s.pi_value + s.config.omega_zero) * s.config.sample_time + s.z1 := by
    have hT' : 0 ≤ s.config.sample_time := by rw [hc]; exact hT
    have := mul_nonneg homega hT'
    linarith
  have hmod := fmod_bounds _ _ (by linarith : (0 : ℚ) < 2 * env.pi) hx
  refine ⟨⟨?_, pidInv_update env cfg s v hpid, ?_⟩, ?_, ?_⟩
  · rw [update_fst_config, hc]
  · rw [update_fst_z1]
    exact hmod.1
  · rw [update_snd_theta]
    exact hmod.1
  · rw [update_snd_theta]
    exact hmod.2

theorem phaseInv_run (env : Env) (cfg : PllConfig) (vs : List ℚ)
    (hpi : 0 < env.pi) (hT : 0 ≤ cfg.sample_time)
    (hw : |cfg.frequency_limit| ≤ cfg.omega_zero) :
    ∀ s : SogiPll, PhaseInv cfg s →
      ∀ r ∈ (SogiPll.run env s vs).2, 0 ≤ r.theta ∧ r.theta < 2 * env.pi := by
  induction vs with
  | nil =>
    intro s _ r hr
    simp [SogiPll.run] at hr
  | cons v rest ih =>
    intro s hs r hr
    have hstep := phaseInv_update env cfg s v hpi hT hw hs
    rw [show SogiPll.run env s (v :: rest) =
        ((SogiPll.run env (SogiPll.update env s v).1 rest).1,
         (SogiPll.update env s v).2 ::
           (SogiPll.run env (SogiPll.update env s v).1 rest).2) from rfl] at hr
    rcases List.mem_cons.mp hr with h | h
    · rw [h]
      exact hstep.2
    · exact ih _ hstep.1 r h

/-- C1 amended: the phase returned by every call lies in `[0, 2π)` for
every configuration with nonnegative sample time whose nominal frequency
dominates the correction limit (`|frequency_limit| ≤ omega_zero`, so the
per-step phase increment stays nonnegative); for other finite
configurations the source's `%` remainder can leave the phase negative
(see the counterexample). -/
theorem claim1_phase_range_amended (env : Env) (cfg : PllConfig)
    (vs : List ℚ) (r : PllResult) (hpi : 0 < env.pi)
    (hT : 0 ≤ cfg.sample_time) (hw : |cfg.frequency_limit| ≤ cfg.omega_zero)
    (hr : r ∈ (SogiPll.run env (SogiPll.new cfg) vs).2) :
    0 ≤ r.theta ∧ r.theta < 2 * env.pi := by
  refine phaseInv_run env cfg vs hpi hT hw (SogiPll.new cfg) ?_ r hr
  exact ⟨rfl, pidInv_new cfg, le_refl 0⟩

/-- C1 witness: the amended phase-range theorem applied to `envC`, the
well-behaved configuration `cfgW` and the one-sample input sequence `[1]`,
whose single result has phase `2 ∈ [0, 6)`. -/
theorem claim1_phase_range_witness :
    0 ≤ (PllResult.mk 0 2 0).theta ∧ (PllResult.mk 0 2 0).theta < 2 * envC.pi :=
  claim1_phase_range_amended envC cfgW [1] (PllResult.mk 0 2 0)
    (by norm_num [envC]) (by norm_num [cfgW]) (by norm_num [cfgW])
    (by norm_num [SogiPll.run, SogiPll.update, SogiPll.new, Sogi.new, Sogi.update,
      ThirdOrderIntegrator.new, ThirdOrderIntegrator.update,
      ThirdOrderIntegrator.value, alpha_beta_to_q, Pid.next_control_output,
      clampAbs, fmod, rtrunc, envC, cfgW])

/-- C3 witness: the saturation bound instantiated at the concrete
environment `envC`, configuration `cfgW` and input sequence `[5, -5]`. -/
theorem claim3_frequency_saturation_witness :
    (0 : ℚ) ≤ cfgW.frequency_limit ∧
    (cfgW.omega_zero - cfgW.frequency_limit ≤
        (SogiPll.run envC (SogiPll.new cfgW) [5, -5]).1.pi_value + cfgW.omega_zero ∧
      (SogiPll.run envC (SogiPll.new cfgW) [5, -5]).1.pi_value + cfgW.omega_zero ≤
        cfgW.omega_zero + cfgW.frequency_limit) :=
  ⟨by norm_num [cfgW],
   claim3_frequency_saturation envC cfgW [5, -5] (by norm_num [cfgW])⟩

/-- One zero-input update from a freshly-constructed estimator whose phase
accumulator holds `z`: the SOGI and controller state are unchanged, the
correction stays zero, and the phase advances by one `phaseStep`. -/
theorem update_zero_state (env : Env) (cfg : PllConfig) (z : ℚ)
    (h : env.sqrt 0 = 0) :
    SogiPll.update env { SogiPll.new cfg with z1 := z } 0 =
      ({ SogiPll.new cfg with z1 := phaseStep env cfg z },
       { v_beta := 0, theta := phaseStep env cfg z, v_rms := 0 }) := by
  simp [SogiPll.update, SogiPll.new, Sogi.new, Sogi.update,
    ThirdOrderIntegrator.new, ThirdOrderIntegrator.update,
    ThirdOrderIntegrator.value, alpha_beta_to_q, Pid.next_control_output,
    phaseStep, h, Prod.ext_iff]

/-- Running a freshly-constructed estimator on `n` zero samples: the state
stays that of a fresh estimator except for the phase accumulator, which
iterates `phaseStep`, and every result has zero quadrature output and
zero RMS. -/
theorem run_zero (env : Env) (cfg : PllConfig) (h : env.sqrt 0 = 0) :
    ∀ (n : ℕ) (z : ℚ),
      SogiPll.run env { SogiPll.new cfg with z1 := z } (List.replicate n 0) =
        ({ SogiPll.new cfg with z1 := (phaseStep env cfg)^[n] z },
         (List.range n).map fun k =>
           { v_beta := 0, theta := (phaseStep env cfg)^[k + 1] z, v_rms := 0 }) := by
  intro n
  induction n with
  | zero => intro z; simp [SogiPll.run]
  | succ n ih =>
    intro z
    have hstep := update_zero_state env cfg z h
    have h1 : (SogiPll.update env { SogiPll.new cfg with z1 := z } 0).1 =
        { SogiPll.new cfg with z1 := phaseStep env cfg z } := by rw [hstep]
    have h2 : (SogiPll.update env { SogiPll.new cfg with z1 := z } 0).2 =
        { v_beta := 0, theta := phaseStep env cfg z, v_rms := 0 } := by rw [hstep]
    have hrun : SogiPll.run env { SogiPll.new cfg with z1 := z }
        (List.replicate (n + 1) 0) =
        ((SogiPll.run env (SogiPll.update env { SogiPll.new cfg with z1 := z } 0).1
            (List.replicate n 0)).1,
         (SogiPll.update env { SogiPll.new cfg with z1 := z } 0).2 ::
           (SogiPll.run env (SogiPll.update env { SogiPll.new cfg with z1 := z } 0).1
              (List.replicate n 0)).2) := rfl
    rw [hrun, h1, h2, ih (phaseStep env cfg z)]
    simp [Prod.ext_iff, Function.iterate_succ_apply, List.range_succ_eq_map,
      List.map_map, Function.comp]

/-- C7: a freshly constructed estimator fed `n` zero samples yields, on
every call, zero quadrature output (`v_beta = 0`, and the SOGI state stays
zeroed, so `v_alpha = 0` too) and zero RMS; the frequency correction stays
zero; and the phase advances each step by exactly
`omega_zero * sample_time` wrapped by the `%` remainder of `2π`
(the iterates of `phaseStep` from `0`). -/
theorem claim7_zero_input (env : Env) (cfg : PllConfig) (n : ℕ)
    (h : env.sqrt 0 = 0) :
    (SogiPll.run env (SogiPll.new cfg) (List.replicate n 0)).2 =
      (List.range n).map (fun k =>
        { v_beta := 0, theta := (phaseStep env cfg)^[k + 1] 0, v_rms := 0 }) ∧
    (SogiPll.run env (SogiPll.new cfg) (List.replicate n 0)).1 =
      { SogiPll.new cfg with z1 := (phaseStep env cfg)^[n] 0 } := by
  have h0 : SogiPll.new cfg = { SogiPll.new cfg with z1 := (0 : ℚ) } := rfl
  rw [h0, run_zero env cfg h n 0]
  exact ⟨rfl, rfl⟩

/-- C7 witness: the zero-input theorem applied to `envC` (whose square
root stand-in sends `0` to `0`), configuration `cfgW` and two samples. -/
theorem claim7_zero_input_witness :
    envC.sqrt 0 = 0 ∧
    ((SogiPll.run envC (SogiPll.new cfgW) (List.replicate 2 0)).2 =
        (List.range 2).map (fun k =>
          { v_beta := 0, theta := (phaseStep envC cfgW)^[k + 1] 0, v_rms := 0 }) ∧
      (SogiPll.run envC (SogiPll.new cfgW) (List.replicate 2 0)).1 =
        { SogiPll.new cfgW with z1 := (phaseStep envC cfgW)^[2] 0 }) :=
  ⟨rfl, claim7_zero_input envC cfgW 2 rfl⟩

/-- C10: the result of the first call after construction is independent of
the first sample `v`: the SOGI outputs are the pre-advance values of the
zero-initialized integrators, so `v_beta = 0`, `v_rms = 0` and
`theta = (omega_zero * sample_time) % 2π`. -/
theorem claim10_first_update (env : Env) (cfg : PllConfig) (v : ℚ)
    (h : env.sqrt 0 = 0) :
    (SogiPll.update env (SogiPll.new cfg) v).2 =
      { v_beta := 0
        theta := fmod (cfg.omega_zero * cfg.sample_time) (2 * env.pi)
        v_rms := 0 } := by
  simp [SogiPll.update, SogiPll.new, Sogi.new, Sogi.update,
    ThirdOrderIntegrator.new, ThirdOrderIntegrator.value, alpha_beta_to_q, h]

/-- C10 witness: the first-call theorem applied to `envC`, `cfgW` and the
first sample `5`. -/
theorem claim10_first_update_witness :
    envC.sqrt 0 = 0 ∧
    (SogiPll.update envC (SogiPll.new cfgW) 5).2 =
      { v_beta := 0
        theta := fmod (cfgW.omega_zero * cfgW.sample_time) (2 * envC.pi)
        v_rms := 0 } :=
  ⟨rfl, claim10_first_update envC cfgW 5 rfl⟩

end SogiPllSpec
